import Mathlib

/-!
Shallow embedding of the tree-sitter-codon external scanner
(src/src/scanner.c) together with proofs about its documented behavior.

Modelling conventions:
* Code points and bytes are natural numbers; the C `uint16_t` store for
  indentation widths is modelled by reducing pushed widths modulo 65536
  (the implicit `uint32_t -> uint16_t` conversion in `array_push`).
* The `TSLexer` is modelled by a record holding the absolute position,
  the remaining input (a list of code points), the position recorded by
  the most recent `mark_end` call, and the `result_symbol` field.
  `lookahead` is the head of the remaining input, or 0 at end of input,
  exactly as tree-sitter presents it.  `advance` and `skip` move the
  cursor identically (they differ only in token-extent bookkeeping that
  none of the verified properties depend on), so both are modelled by
  `advance`.
* Each C `while` loop is translated to a fuel-indexed recursion; callers
  pass `rest.length + 1` fuel.  Every loop iteration consumes at least
  one input code point (each `advance`/`skip` in the C code is guarded
  by a non-zero lookahead), so the fuel can never run out before the
  loop condition fails; the fuel-zero branch replicates the loop-exit
  continuation.
* Serialization uses little-endian byte order for the multi-byte
  `memcpy` fields, matching the hosts the scanner ships on.
-/

namespace Codon

/-- Token kinds, mirroring `enum TokenType` in scanner.c lines 19-29. -/
inductive TokenType where
  | NEWLINE
  | INDENT
  | DEDENT
  | STRING_START
  | STRING_CONTENT
  | ESCAPE_INTERPOLATION
  | STRING_END
  | EXTERN_CONTENT
  | PREC
deriving DecidableEq, Repr

/-- Scanner state, mirroring `struct Scanner` (lines 31-35): a stack of
uint16 indentation widths, a stack of int32 delimiter descriptors, and
the f-string flag.  Stacks grow at the end of the list (C arrays push at
the back). -/
structure Scanner where
  indents : List Nat
  delimiters : List Nat
  inside_f_string : Bool
deriving DecidableEq, Repr

/-- The lexer cursor: absolute position, remaining input, mark_end
position, and result_symbol. -/
structure Lexer where
  pos : Nat
  rest : List Nat
  markedEnd : Nat
  resSym : Option TokenType
deriving DecidableEq, Repr

/-- Current lookahead code point; 0 at end of input. -/
def lookahead (l : Lexer) : Nat := l.rest.headD 0

/-- lexer->advance (also models skip; see header comment). -/
def advance (l : Lexer) : Lexer :=
  { l with pos := l.pos + 1, rest := l.rest.tail }

/-- lexer->mark_end. -/
def markEnd (l : Lexer) : Lexer := { l with markedEnd := l.pos }

/-- lexer->eof. -/
def atEof (l : Lexer) : Bool := l.rest.isEmpty

/-- lexer->result_symbol assignment. -/
def setSym (l : Lexer) (t : TokenType) : Lexer := { l with resSym := some t }

/-- is_space (lines 40-42): space or tab. -/
def is_space (c : Nat) : Bool := c == 32 || c == 9

/-- is_newline (lines 44-46): LF or CR. -/
def is_newline (c : Nat) : Bool := c == 10 || c == 13

/-! ## Serialization (lines 63-146)

`TREE_SITTER_SERIALIZATION_BUFFER_SIZE` is 1024 bytes. -/

def BUFFER_SIZE : Nat := 1024

/-- Little-endian bytes of a uint16 (memcpy of a 2-byte field). -/
def u16le (n : Nat) : List Nat := [n % 256, n / 256 % 256]

/-- Little-endian bytes of a uint32 (memcpy of a 4-byte field). -/
def u32le (n : Nat) : List Nat :=
  [n % 256, n / 256 % 256, n / 65536 % 256, n / 16777216 % 256]

/-- Serialization loop for indents (lines 74-79): before each 2-byte
write, fail (return size 0, modelled as none) if it would overflow. -/
def serIndents : List Nat → Nat → Option (List Nat × Nat)
  | [], size => some ([], size)
  | v :: vs, size =>
    if size + 2 > BUFFER_SIZE then none
    else
      match serIndents vs (size + 2) with
      | none => none
      | some (bs, sz) => some (u16le v ++ bs, sz)

/-- Serialization loop for delimiters (lines 88-93): 4-byte writes. -/
def serDelims : List Nat → Nat → Option (List Nat × Nat)
  | [], size => some ([], size)
  | v :: vs, size =>
    if size + 4 > BUFFER_SIZE then none
    else
      match serDelims vs (size + 4) with
      | none => none
      | some (bs, sz) => some (u32le v ++ bs, sz)

/-- tree_sitter_codon_external_scanner_serialize (lines 63-100).
Returns the byte buffer; the C function returns 0 (modelled as the empty
list) whenever any bounds check fires. -/
def serialize (s : Scanner) : List Nat :=
  if 0 + 4 > BUFFER_SIZE then []
  else
    match serIndents s.indents 4 with
    | none => []
    | some (indBytes, size1) =>
      if size1 + 4 > BUFFER_SIZE then []
      else
        match serDelims s.delimiters (size1 + 4) with
        | none => []
        | some (delBytes, size2) =>
          if size2 + 1 > BUFFER_SIZE then []
          else
            u32le s.indents.length ++ indBytes ++
              u32le s.delimiters.length ++ delBytes ++
              [if s.inside_f_string then 1 else 0]

/-- Deserialization loop for indents (lines 119-125): read `count`
16-bit values; on truncation stop, keeping the values read so far
(they were already pushed) and reporting incompleteness. -/
def readU16s : Nat → List Nat → List Nat × List Nat × Bool
  | 0, buf => ([], buf, true)
  | n + 1, b0 :: b1 :: rest =>
    let r := readU16s n rest
    ((b0 % 256 + 256 * (b1 % 256)) :: r.1, r.2.1, r.2.2)
  | _ + 1, buf => ([], buf, false)

/-- Deserialization loop for delimiters (lines 134-140): 32-bit values. -/
def readU32s : Nat → List Nat → List Nat × List Nat × Bool
  | 0, buf => ([], buf, true)
  | n + 1, b0 :: b1 :: b2 :: b3 :: rest =>
    let r := readU32s n rest
    ((b0 % 256 + 256 * (b1 % 256) + 65536 * (b2 % 256) +
        16777216 * (b3 % 256)) :: r.1, r.2.1, r.2.2)
  | _ + 1, buf => ([], buf, false)

/-- tree_sitter_codon_external_scanner_deserialize (lines 102-146).
Clears the state, then restores fields while bounds remain; each early
`return` in the C code keeps what was restored up to that point. -/
def deserialize (buf : List Nat) : Scanner :=
  if buf.length = 0 then ⟨[], [], false⟩
  else
    match buf with
    | b0 :: b1 :: b2 :: b3 :: rest =>
      let ic := b0 % 256 + 256 * (b1 % 256) + 65536 * (b2 % 256) +
        16777216 * (b3 % 256)
      let r1 := readU16s ic rest
      if r1.2.2 then
        match r1.2.1 with
        | c0 :: c1 :: c2 :: c3 :: rest2 =>
          let dc := c0 % 256 + 256 * (c1 % 256) + 65536 * (c2 % 256) +
            16777216 * (c3 % 256)
          let r2 := readU32s dc rest2
          if r2.2.2 then
            match r2.2.1 with
            | fb :: _ => ⟨r1.1, r2.1, fb == 1⟩
            | [] => ⟨r1.1, r2.1, false⟩
          else ⟨r1.1, r2.1, false⟩
        | _ => ⟨r1.1, [], false⟩
      else ⟨r1.1, [], false⟩
    | _ => ⟨[], [], false⟩

/-! ## Indentation tracking (lines 148-219) -/

/-- The whitespace loops (lines 150-152 and 176-179): skip spaces and
tabs, counting them.  Line 150 discards the count. -/
def skipSpacesCount : Nat → Lexer → Nat → Nat × Lexer
  | 0, l, n => (n, l)
  | fuel + 1, l, n =>
    if is_space (lookahead l) then skipSpacesCount fuel (advance l) (n + 1)
    else (n, l)

/-- The comment loops (lines 156-158 and 184-186): skip to end of line
or end of input. -/
def skipToEol : Nat → Lexer → Lexer
  | 0, l => l
  | fuel + 1, l =>
    if !is_newline (lookahead l) && lookahead l != 0 then
      skipToEol fuel (advance l)
    else l

/-- The blank/comment-line loop (lines 182-199): while the lookahead is
a newline or a hash, skip any comment, consume the line terminator, and
re-measure the next line's leading whitespace from zero. -/
def skipBlankLines : Nat → Lexer → Nat → Nat × Lexer
  | 0, l, ind => (ind, l)
  | fuel + 1, l, ind =>
    if is_newline (lookahead l) || lookahead l == 35 then
      let l1 := if lookahead l == 35 then skipToEol (l.rest.length + 1) l else l
      let l2 :=
        if is_newline (lookahead l1) then
          let la := advance l1
          if lookahead la == 10 then advance la else la
        else l1
      let r := skipSpacesCount (l2.rest.length + 1) l2 0
      skipBlankLines fuel r.2 r.1
    else (ind, l)

/-- The indent comparison (lines 201-218): compare the measured width to
the stack top (0 when empty); push-and-INDENT, pop-and-DEDENT, or fall
back to NEWLINE acceptability.  The push stores the width as a uint16. -/
def indentClassify (s : Scanner) (l : Lexer) (indent : Nat)
    (valid : TokenType → Bool) : Bool × Scanner × Lexer :=
  let current := (s.indents.getLast?).getD 0
  if current < indent ∧ valid .INDENT = true then
    (true, { s with indents := s.indents ++ [indent % 65536] },
      setSym l .INDENT)
  else if indent < current ∧ valid .DEDENT = true then
    (true, { s with indents := s.indents.dropLast }, setSym l .DEDENT)
  else
    (valid .NEWLINE, s, l)

/-- scan_newline (lines 148-219). -/
def scan_newline (s : Scanner) (l : Lexer) (valid : TokenType → Bool) :
    Bool × Scanner × Lexer :=
  let l1 := (skipSpacesCount (l.rest.length + 1) l 0).2
  let l2 := if lookahead l1 == 35 then skipToEol (l1.rest.length + 1) l1 else l1
  if !is_newline (lookahead l2) then (false, s, l2)
  else
    let l3 := advance l2
    let l4 := if lookahead l3 == 10 then advance l3 else l3
    let l5 := markEnd (setSym l4 .NEWLINE)
    let r1 := skipSpacesCount (l5.rest.length + 1) l5 0
    let r2 := skipBlankLines (r1.2.rest.length + 1) r1.2 r1.1
    indentClassify s r2.2 r2.1 valid

/-! ## String tokenization (lines 221-396) -/

/-- The prefix-letter loop (lines 231-247): accumulate raw / format /
bytes flags over the letters r R f F b B u U. -/
def scanFlagChars : Nat → Lexer → Bool → Bool → Bool →
    Lexer × Bool × Bool × Bool
  | 0, l, r, f, b => (l, r, f, b)
  | fuel + 1, l, r, f, b =>
    let c := lookahead l
    if c == 114 || c == 82 then scanFlagChars fuel (advance l) true f b
    else if c == 102 || c == 70 then scanFlagChars fuel (advance l) r true b
    else if c == 98 || c == 66 then scanFlagChars fuel (advance l) r f true
    else if c == 117 || c == 85 then scanFlagChars fuel (advance l) r f b
    else (l, r, f, b)

/-- Delimiter descriptor (line 272): quote char with triple / raw /
format bits or-ed in. -/
def mkDelim (qc : Nat) (tri raw fmt : Bool) : Nat :=
  qc ||| (if tri then 256 else 0) ||| (if raw then 512 else 0) |||
    (if fmt then 1024 else 0)

/-- Outcome of the content loop (lines 290-356): `emit` is a
`return true` with the result symbol already set, `fail` is the
`return false` at line 341 (interpolation start), `broke` is a `break`
out of the loop carrying the has_content flag. -/
inductive ContentRes where
  | emit (l : Lexer)
  | fail (l : Lexer)
  | broke (hasContent : Bool) (l : Lexer)
deriving DecidableEq, Repr

/-- The lexer carried by a content-loop outcome. -/
def ContentRes.lex : ContentRes → Lexer
  | .emit l => l
  | .fail l => l
  | .broke _ l => l

/-- The string-content loop (lines 290-356). -/
def contentLoop (qc : Nat) (tri raw fmt : Bool) :
    Nat → Lexer → Bool → ContentRes
  | 0, l, hc => .broke hc l
  | fuel + 1, l, hc =>
    if lookahead l == 0 then .broke hc l
    else if lookahead l == qc then
      if tri then
        let l1 := markEnd l
        let l2 := advance l1
        if lookahead l2 == qc then
          let l3 := advance l2
          if lookahead l3 == qc then
            if hc then .emit (setSym l3 .STRING_CONTENT)
            else .broke hc l3
          else contentLoop qc tri raw fmt fuel l3 true
        else contentLoop qc tri raw fmt fuel l2 true
      else .broke hc l
    else if !tri && is_newline (lookahead l) then .broke hc l
    else if fmt && lookahead l == 123 then
      if hc then .emit (setSym (markEnd l) .STRING_CONTENT)
      else
        let l1 := advance l
        if lookahead l1 == 123 then
          .emit (setSym (markEnd (advance l1)) .ESCAPE_INTERPOLATION)
        else .fail l1
    else if !raw && lookahead l == 92 then
      let l1 := advance l
      let l2 := if lookahead l1 != 0 then advance l1 else l1
      contentLoop qc tri raw fmt fuel l2 true
    else contentLoop qc tri raw fmt fuel (advance l) true

/-- The successful STRING_END epilogue (lines 386-391): mark, pop the
delimiter, recompute the f-string flag from the new top. -/
def finishEnd (s : Scanner) (l : Lexer) : Bool × Scanner × Lexer :=
  let ds := s.delimiters.dropLast
  let flag :=
    match ds.getLast? with
    | some d2 => (d2 &&& 1024) != 0
    | none => false
  (true, ⟨s.indents, ds, flag⟩, setSym (markEnd l) .STRING_END)

/-- The STRING_END section (lines 366-393). -/
def stringEndSection (s : Scanner) (l : Lexer) (valid : TokenType → Bool) :
    Bool × Scanner × Lexer :=
  if valid .STRING_END = true ∧ s.delimiters ≠ [] then
    match s.delimiters.getLast? with
    | some d =>
      let qc := d &&& 255
      let tri := (d &&& 256) != 0
      if lookahead l == qc then
        let l1 := advance l
        if tri then
          if lookahead l1 == qc then
            let l2 := advance l1
            if lookahead l2 == qc then finishEnd s (advance l2)
            else (false, s, l2)
          else (false, s, l1)
        else finishEnd s l1
      else (false, s, l)
    | none => (false, s, l)
  else (false, s, l)

/-- The STRING_CONTENT section (lines 281-363) followed by the
STRING_END section: everything in scan_string after the STRING_START
block falls through to here. -/
def scanStringRest (s : Scanner) (l : Lexer) (valid : TokenType → Bool) :
    Bool × Scanner × Lexer :=
  if valid .STRING_CONTENT = true ∧ s.delimiters ≠ [] then
    match s.delimiters.getLast? with
    | some d =>
      let qc := d &&& 255
      let tri := (d &&& 256) != 0
      let raw := (d &&& 512) != 0
      let fmt := (d &&& 1024) != 0
      match contentLoop qc tri raw fmt (l.rest.length + 1) l false with
      | .emit l2 => (true, s, l2)
      | .fail l2 => (false, s, l2)
      | .broke true l2 => (true, s, setSym (markEnd l2) .STRING_CONTENT)
      | .broke false l2 => stringEndSection s l2 valid
    | none => stringEndSection s l valid
  else stringEndSection s l valid

/-- The successful STRING_START epilogue (lines 268-276): mark, set the
symbol, push the delimiter descriptor, set the f-string flag. -/
def stringStartPush (s : Scanner) (l : Lexer) (qc : Nat)
    (tri raw fmt : Bool) : Bool × Scanner × Lexer :=
  (true,
    ⟨s.indents, s.delimiters ++ [mkDelim qc tri raw fmt], fmt⟩,
    setSym (markEnd l) .STRING_START)

/-- scan_string (lines 221-396). -/
def scan_string (s : Scanner) (l : Lexer) (valid : TokenType → Bool) :
    Bool × Scanner × Lexer :=
  if valid .STRING_START = true then
    let p := scanFlagChars (l.rest.length + 1) l false false false
    let l1 := p.1
    let raw := p.2.1
    let fmt := p.2.2.1
    if lookahead l1 == 34 || lookahead l1 == 39 then
      let qc := lookahead l1
      let l2 := advance l1
      if lookahead l2 == qc then
        let l3 := advance l2
        if lookahead l3 == qc then
          stringStartPush s (advance l3) qc true raw fmt
        else (true, s, setSym (markEnd l3) .STRING_START)
      else stringStartPush s l2 qc false raw fmt
    else scanStringRest s l1 valid
  else scanStringRest s l valid

/-! ## Dispatcher (lines 398-427) -/

/-- tree_sitter_codon_external_scanner_scan (lines 398-427).  Note that
when scan_string returns false the (already advanced) lexer flows on
into scan_newline, exactly as the shared TSLexer does in C. -/
def scan (s : Scanner) (l : Lexer) (valid : TokenType → Bool) :
    Bool × Scanner × Lexer :=
  if valid .DEDENT = true ∧ s.indents ≠ [] ∧ atEof l = true then
    (true, { s with indents := s.indents.dropLast }, setSym l .DEDENT)
  else if valid .STRING_START = true ∨ valid .STRING_CONTENT = true ∨
      valid .STRING_END = true ∨ valid .ESCAPE_INTERPOLATION = true then
    match scan_string s l valid with
    | (true, s1, l1) => (true, s1, l1)
    | (false, s1, l1) =>
      if valid .NEWLINE = true ∨ valid .INDENT = true ∨ valid .DEDENT = true then
        scan_newline s1 l1 valid
      else (false, s1, l1)
  else if valid .NEWLINE = true ∨ valid .INDENT = true ∨ valid .DEDENT = true then
    scan_newline s l valid
  else (false, s, l)

/-- States reachable from the freshly created scanner by scan calls. -/
inductive Reachable : Scanner → Prop where
  | init : Reachable ⟨[], [], false⟩
  | step (s : Scanner) (l : Lexer) (v : TokenType → Bool) :
      Reachable s → Reachable (scan s l v).2.1

/-- States reachable by scan calls whose input buffers are shorter than
65536 code points (so no measured indentation width can overflow the
uint16 store). -/
inductive ReachableB : Scanner → Prop where
  | init : ReachableB ⟨[], [], false⟩
  | step (s : Scanner) (l : Lexer) (v : TokenType → Bool) :
      ReachableB s → l.rest.length < 65536 → ReachableB (scan s l v).2.1

/-- The f-string flag the data-model invariant demands: the format bit
of the delimiter stack top, false when the stack is empty. -/
def topFormatFlag (ds : List Nat) : Bool :=
  match ds.getLast? with
  | some d => (d &&& 1024) != 0
  | none => false

/-! ## Concrete acceptable-kind sets used in examples and witnesses -/

/-- Only the line-structure kinds NEWLINE, INDENT, DEDENT. -/
def vLine : TokenType → Bool := fun t =>
  match t with
  | .NEWLINE => true | .INDENT => true | .DEDENT => true
  | _ => false

/-- Only STRING_START. -/
def vStart : TokenType → Bool := fun t =>
  match t with
  | .STRING_START => true
  | _ => false

/-- STRING_CONTENT, ESCAPE_INTERPOLATION and STRING_END. -/
def vContent : TokenType → Bool := fun t =>
  match t with
  | .STRING_CONTENT => true | .ESCAPE_INTERPOLATION => true
  | .STRING_END => true
  | _ => false

/-- Only STRING_END. -/
def vEnd : TokenType → Bool := fun t =>
  match t with
  | .STRING_END => true
  | _ => false

/-- Every kind acceptable. -/
def vAll : TokenType → Bool := fun _ => true

/-- A lexer positioned at the start of the given input. -/
def mkLexer (cs : List Nat) : Lexer := ⟨0, cs, 0, none⟩

/-- Code points of the format-string scenario input: f three-single-quotes
abc two-open-braces def three-single-quotes. -/
def fStringInput : List Nat :=
  [102, 39, 39, 39, 97, 98, 99, 123, 123, 100, 101, 102, 39, 39, 39]

/-! ## Basic lexer lemmas -/

theorem advance_resSym (l : Lexer) : (advance l).resSym = l.resSym := rfl

theorem advance_len (l : Lexer) : (advance l).rest.length ≤ l.rest.length := by
  simp [advance]

theorem advance_len_of_ne (l : Lexer) (h : lookahead l ≠ 0) :
    (advance l).rest.length + 1 = l.rest.length := by
  cases hr : l.rest with
  | nil => exact absurd (by simp [lookahead, hr]) h
  | cons c cs => simp [advance, hr]

theorem ite_advance_len (c : Prop) [Decidable c] (l : Lexer) :
    (if c then advance l else l).rest.length ≤ l.rest.length := by
  split
  · exact advance_len l
  · exact le_refl _

theorem ite_advance_resSym (c : Prop) [Decidable c] (l : Lexer) :
    (if c then advance l else l).resSym = l.resSym := by
  split <;> rfl

/-! ## Whitespace-loop lemmas -/

theorem skipSpacesCount_resSym (fuel : Nat) : ∀ l n,
    (skipSpacesCount fuel l n).2.resSym = l.resSym := by
  induction fuel with
  | zero => intro l n; rfl
  | succ f ih =>
    intro l n
    simp only [skipSpacesCount]
    split
    · rw [ih]; rfl
    · rfl

theorem skipSpacesCount_len (fuel : Nat) : ∀ l n,
    (skipSpacesCount fuel l n).2.rest.length ≤ l.rest.length := by
  induction fuel with
  | zero => intro l n; exact le_refl _
  | succ f ih =>
    intro l n
    simp only [skipSpacesCount]
    split
    · exact le_trans (ih (advance l) (n + 1)) (advance_len l)
    · exact le_refl _

theorem skipSpacesCount_count (fuel : Nat) : ∀ l n,
    (skipSpacesCount fuel l n).1 ≤ n + l.rest.length := by
  induction fuel with
  | zero => intro l n; simp [skipSpacesCount]
  | succ f ih =>
    intro l n
    simp only [skipSpacesCount]
    split
    · next h =>
      have h0 : lookahead l ≠ 0 := by
        intro h0; rw [h0] at h; exact absurd h (by decide)
      have := advance_len_of_ne l h0
      have := ih (advance l) (n + 1)
      omega
    · simp

theorem skipToEol_resSym (fuel : Nat) : ∀ l,
    (skipToEol fuel l).resSym = l.resSym := by
  induction fuel with
  | zero => intro l; rfl
  | succ f ih =>
    intro l
    simp only [skipToEol]
    split
    · rw [ih]; rfl
    · rfl

theorem skipToEol_len (fuel : Nat) : ∀ l,
    (skipToEol fuel l).rest.length ≤ l.rest.length := by
  induction fuel with
  | zero => intro l; exact le_refl _
  | succ f ih =>
    intro l
    simp only [skipToEol]
    split
    · exact le_trans (ih (advance l)) (advance_len l)
    · exact le_refl _

theorem ite_skipToEol_len (c : Prop) [Decidable c] (f : Nat) (l : Lexer) :
    (if c then skipToEol f l else l).rest.length ≤ l.rest.length := by
  split
  · exact skipToEol_len f l
  · exact le_refl _

theorem ite_skipToEol_resSym (c : Prop) [Decidable c] (f : Nat) (l : Lexer) :
    (if c then skipToEol f l else l).resSym = l.resSym := by
  split
  · exact skipToEol_resSym f l
  · rfl

theorem skipBlankLines_resSym (fuel : Nat) : ∀ l ind,
    (skipBlankLines fuel l ind).2.resSym = l.resSym := by
  induction fuel with
  | zero => intro l ind; rfl
  | succ f ih =>
    intro l ind
    simp only [skipBlankLines]
    split
    · rw [ih, skipSpacesCount_resSym]
      repeat' split
      all_goals simp [advance, skipToEol_resSym]
    · rfl

theorem skipBlankLines_len (fuel : Nat) : ∀ l ind,
    (skipBlankLines fuel l ind).2.rest.length ≤ l.rest.length := by
  induction fuel with
  | zero => intro l ind; exact le_refl _
  | succ f ih =>
    intro l ind
    simp only [skipBlankLines]
    split
    · refine le_trans (le_trans (ih _ _) (skipSpacesCount_len _ _ _)) ?_
      have hse := skipToEol_len (l.rest.length + 1) l
      repeat' split
      all_goals simp [advance]
      all_goals omega
    · exact le_refl _

theorem skipBlankLines_count (fuel : Nat) : ∀ l ind,
    (skipBlankLines fuel l ind).1 ≤ max ind l.rest.length := by
  induction fuel with
  | zero => intro l ind; exact le_max_left _ _
  | succ f ih =>
    intro l ind
    simp only [skipBlankLines]
    split
    · refine le_trans (ih _ _) (max_le ?_ ?_)
      · refine le_trans (skipSpacesCount_count _ _ 0) ?_
        rw [Nat.zero_add]
        refine le_trans ?_ (le_max_right ind l.rest.length)
        have hse := skipToEol_len (l.rest.length + 1) l
        repeat' split
        all_goals simp [advance]
        all_goals omega
      · refine le_trans (skipSpacesCount_len _ _ _) ?_
        refine le_trans ?_ (le_max_right ind l.rest.length)
        have hse := skipToEol_len (l.rest.length + 1) l
        repeat' split
        all_goals simp [advance]
        all_goals omega
    · exact le_max_left _ _

/-! ## String-section lemmas -/

theorem contentLoop_emit_resSym (qc : Nat) (tri raw fmt : Bool) :
    ∀ fuel l hc l2, contentLoop qc tri raw fmt fuel l hc = .emit l2 →
      l2.resSym = some .STRING_CONTENT ∨
      l2.resSym = some .ESCAPE_INTERPOLATION := by
  intro fuel
  induction fuel with
  | zero => intro l hc l2 h; exact absurd h (by simp [contentLoop])
  | succ f ih =>
    intro l hc l2 h
    simp only [contentLoop] at h
    repeat' split at h
    all_goals first
      | (cases h; simp [setSym])
      | exact ih _ _ _ h
      | simp at h

theorem contentLoop_len (qc : Nat) (tri raw fmt : Bool) :
    ∀ fuel l hc,
      (contentLoop qc tri raw fmt fuel l hc).lex.rest.length ≤
        l.rest.length := by
  intro fuel
  induction fuel with
  | zero => intro l hc; exact le_refl _
  | succ f ih =>
    intro l hc
    simp only [contentLoop]
    repeat' split
    all_goals first
      | exact le_refl _
      | refine le_trans (ih _ _) ?_
      | skip
    all_goals simp [ContentRes.lex, setSym, markEnd, advance]
    all_goals omega

theorem scanFlagChars_len (fuel : Nat) : ∀ l r f b,
    (scanFlagChars fuel l r f b).1.rest.length ≤ l.rest.length := by
  induction fuel with
  | zero => intro l r f b; exact le_refl _
  | succ fl ih =>
    intro l r f b
    simp only [scanFlagChars]
    repeat' split
    all_goals first
      | exact le_refl _
      | exact le_trans (ih (advance l) _ _ _) (advance_len l)

theorem stringEndSection_cases (s : Scanner) (l : Lexer)
    (v : TokenType → Bool) :
    ((stringEndSection s l v).1 = false ∧
      (stringEndSection s l v).2.1 = s) ∨
    (∃ l2, stringEndSection s l v =
      (true,
        ⟨s.indents, s.delimiters.dropLast,
          topFormatFlag s.delimiters.dropLast⟩,
        setSym (markEnd l2) .STRING_END)) := by
  simp only [stringEndSection, finishEnd, topFormatFlag]
  repeat' split
  all_goals first
    | exact Or.inl ⟨rfl, rfl⟩
    | exact Or.inr ⟨_, rfl⟩

theorem stringEndSection_len (s : Scanner) (l : Lexer)
    (v : TokenType → Bool) :
    (stringEndSection s l v).2.2.rest.length ≤ l.rest.length := by
  simp only [stringEndSection, finishEnd]
  repeat' split
  all_goals simp [advance, markEnd, setSym]
  all_goals omega

theorem scanStringRest_cases (s : Scanner) (l : Lexer)
    (v : TokenType → Bool) :
    ((scanStringRest s l v).1 = false ∧ (scanStringRest s l v).2.1 = s) ∨
    ((scanStringRest s l v).1 = true ∧ (scanStringRest s l v).2.1 = s ∧
      ((scanStringRest s l v).2.2.resSym = some .STRING_CONTENT ∨
       (scanStringRest s l v).2.2.resSym = some .ESCAPE_INTERPOLATION)) ∨
    (∃ l2, scanStringRest s l v =
      (true,
        ⟨s.indents, s.delimiters.dropLast,
          topFormatFlag s.delimiters.dropLast⟩,
        setSym (markEnd l2) .STRING_END)) := by
  simp only [scanStringRest]
  split
  · split
    · next d _ =>
      split
      · next l2 hcl =>
        exact Or.inr (Or.inl ⟨rfl, rfl,
          contentLoop_emit_resSym _ _ _ _ _ _ _ _ hcl⟩)
      · exact Or.inl ⟨rfl, rfl⟩
      · exact Or.inr (Or.inl ⟨rfl, rfl, Or.inl rfl⟩)
      · rcases stringEndSection_cases s _ v with h | h
        · exact Or.inl h
        · exact Or.inr (Or.inr h)
    · rcases stringEndSection_cases s l v with h | h
      · exact Or.inl h
      · exact Or.inr (Or.inr h)
  · rcases stringEndSection_cases s l v with h | h
    · exact Or.inl h
    · exact Or.inr (Or.inr h)

theorem scanStringRest_len (s : Scanner) (l : Lexer)
    (v : TokenType → Bool) :
    (scanStringRest s l v).2.2.rest.length ≤ l.rest.length := by
  simp only [scanStringRest]
  split
  · split
    · next d _ =>
      have hlen := contentLoop_len (d &&& 255) ((d &&& 256) != 0)
        ((d &&& 512) != 0) ((d &&& 1024) != 0) (l.rest.length + 1) l false
      split
      all_goals rename_i hcl
      · rw [hcl] at hlen
        exact hlen
      · rw [hcl] at hlen
        exact hlen
      · rw [hcl] at hlen
        simpa [setSym, markEnd] using hlen
      · rw [hcl] at hlen
        exact le_trans (stringEndSection_len s _ v) hlen
    · exact stringEndSection_len s l v
  · exact stringEndSection_len s l v

theorem scan_string_cases (s : Scanner) (l : Lexer) (v : TokenType → Bool) :
    ((scan_string s l v).1 = false ∧ (scan_string s l v).2.1 = s) ∨
    ((scan_string s l v).1 = true ∧ (scan_string s l v).2.1 = s ∧
      ((scan_string s l v).2.2.resSym = some .STRING_CONTENT ∨
       (scan_string s l v).2.2.resSym = some .ESCAPE_INTERPOLATION ∨
       (scan_string s l v).2.2.resSym = some .STRING_START)) ∨
    (∃ qc tri raw fmt l2, (qc = 34 ∨ qc = 39) ∧
      scan_string s l v =
        (true,
          ⟨s.indents, s.delimiters ++ [mkDelim qc tri raw fmt], fmt⟩,
          setSym (markEnd l2) .STRING_START)) ∨
    (∃ l2, scan_string s l v =
      (true,
        ⟨s.indents, s.delimiters.dropLast,
          topFormatFlag s.delimiters.dropLast⟩,
        setSym (markEnd l2) .STRING_END)) := by
  have hrest : ∀ l2 : Lexer,
      ((scanStringRest s l2 v).1 = false ∧ (scanStringRest s l2 v).2.1 = s) ∨
      ((scanStringRest s l2 v).1 = true ∧ (scanStringRest s l2 v).2.1 = s ∧
        ((scanStringRest s l2 v).2.2.resSym = some .STRING_CONTENT ∨
         (scanStringRest s l2 v).2.2.resSym = some .ESCAPE_INTERPOLATION ∨
         (scanStringRest s l2 v).2.2.resSym = some .STRING_START)) ∨
      (∃ qc tri raw fmt l3, (qc = 34 ∨ qc = 39) ∧
        scanStringRest s l2 v =
          (true,
            ⟨s.indents, s.delimiters ++ [mkDelim qc tri raw fmt], fmt⟩,
            setSym (markEnd l3) .STRING_START)) ∨
      (∃ l3, scanStringRest s l2 v =
        (true,
          ⟨s.indents, s.delimiters.dropLast,
            topFormatFlag s.delimiters.dropLast⟩,
          setSym (markEnd l3) .STRING_END)) := by
    intro l2
    rcases scanStringRest_cases s l2 v with h | h | h
    · exact Or.inl h
    · exact Or.inr (Or.inl ⟨h.1, h.2.1, Or.imp id Or.inl h.2.2⟩)
    · exact Or.inr (Or.inr (Or.inr h))
  simp only [scan_string, stringStartPush]
  split
  · split
    · next hq =>
      have hqor : lookahead (scanFlagChars (l.rest.length + 1) l
          false false false).1 = 34 ∨
          lookahead (scanFlagChars (l.rest.length + 1) l
            false false false).1 = 39 := by
        rcases Bool.or_eq_true_iff.mp hq with h | h
        · exact Or.inl (eq_of_beq h)
        · exact Or.inr (eq_of_beq h)
      split
      · split
        · exact Or.inr (Or.inr (Or.inl ⟨_, _, _, _, _, hqor, rfl⟩))
        · exact Or.inr (Or.inl ⟨rfl, rfl, Or.inr (Or.inr rfl)⟩)
      · exact Or.inr (Or.inr (Or.inl ⟨_, _, _, _, _, hqor, rfl⟩))
    · exact hrest _
  · exact hrest l

theorem scan_string_len (s : Scanner) (l : Lexer) (v : TokenType → Bool) :
    (scan_string s l v).2.2.rest.length ≤ l.rest.length := by
  have hfl := scanFlagChars_len (l.rest.length + 1) l false false false
  simp only [scan_string, stringStartPush]
  split
  · split
    · split
      · split
        · simp [advance, markEnd, setSym]
          omega
        · simp [advance, markEnd, setSym]
          omega
      · simp [advance, markEnd, setSym]
        omega
    · exact le_trans (scanStringRest_len s _ v) hfl
  · exact scanStringRest_len s l v

/-! ## Indent-section and dispatcher lemmas -/

theorem indentClassify_cases (s : Scanner) (lx : Lexer) (w : Nat)
    (v : TokenType → Bool) :
    (indentClassify s lx w v).2.1.delimiters = s.delimiters ∧
    (indentClassify s lx w v).2.1.inside_f_string = s.inside_f_string ∧
    (((indentClassify s lx w v).2.1 = s ∧
        (indentClassify s lx w v).2.2 = lx ∧
        (indentClassify s lx w v).1 = v .NEWLINE) ∨
     ((indentClassify s lx w v).1 = true ∧
        s.indents.getLast?.getD 0 < w ∧
        (indentClassify s lx w v).2.1.indents = s.indents ++ [w % 65536] ∧
        (indentClassify s lx w v).2.2.resSym = some .INDENT) ∨
     ((indentClassify s lx w v).1 = true ∧
        (indentClassify s lx w v).2.1.indents = s.indents.dropLast ∧
        (indentClassify s lx w v).2.2.resSym = some .DEDENT)) := by
  simp only [indentClassify]
  repeat' split
  · next hcond => exact ⟨rfl, rfl, Or.inr (Or.inl ⟨rfl, hcond.1, rfl, rfl⟩)⟩
  · exact ⟨rfl, rfl, Or.inr (Or.inr ⟨rfl, rfl, rfl⟩)⟩
  · exact ⟨rfl, rfl, Or.inl ⟨rfl, rfl, rfl⟩⟩

theorem scan_newline_shape (s : Scanner) (l : Lexer) (v : TokenType → Bool) :
    ((scan_newline s l v).1 = false ∧ (scan_newline s l v).2.1 = s) ∨
    (∃ lx w, scan_newline s l v = indentClassify s lx w v ∧
      lx.resSym = some .NEWLINE ∧ w ≤ l.rest.length) := by
  have h1 := skipSpacesCount_len (l.rest.length + 1) l 0
  have h2 := skipToEol_len
    ((skipSpacesCount (l.rest.length + 1) l 0).2.rest.length + 1)
    (skipSpacesCount (l.rest.length + 1) l 0).2
  simp only [scan_newline]
  repeat' split
  all_goals try exact Or.inl ⟨rfl, rfl⟩
  all_goals refine Or.inr ⟨_, _, rfl, ?_, ?_⟩
  all_goals try (rw [skipBlankLines_resSym, skipSpacesCount_resSym]; rfl)
  all_goals refine le_trans (skipBlankLines_count _ _ _) (max_le ?_ ?_)
  all_goals try (refine le_trans (skipSpacesCount_count _ _ 0) ?_
                 rw [Nat.zero_add])
  all_goals try refine le_trans (skipSpacesCount_len _ _ _) ?_
  all_goals simp [advance, markEnd, setSym]
  all_goals omega

theorem scan_newline_state_of_false (s : Scanner) (l : Lexer)
    (v : TokenType → Bool) (h : (scan_newline s l v).1 = false) :
    (scan_newline s l v).2.1 = s := by
  rcases scan_newline_shape s l v with ⟨_, hs⟩ | ⟨lx, w, heq, _, _⟩
  · exact hs
  · rw [heq] at h ⊢
    rcases (indentClassify_cases s lx w v).2.2 with h1 | h1 | h1
    · exact h1.1
    · rw [h1.1] at h; exact absurd h (by simp)
    · rw [h1.1] at h; exact absurd h (by simp)

theorem scan_state_of_false (s : Scanner) (l : Lexer) (v : TokenType → Bool)
    (h : (scan s l v).1 = false) : (scan s l v).2.1 = s := by
  rcases hscan : scan s l v with ⟨b, s2, l2⟩
  rw [hscan] at h
  simp only at h
  subst h
  show s2 = s
  simp only [scan] at hscan
  split at hscan
  · simp at hscan
  · split at hscan
    · split at hscan
      · next s1 l1 heq => simp at hscan
      · next s1 l1 heq =>
        have hs1 : s1 = s := by
          rcases scan_string_cases s l v with ⟨_, h2⟩ | ⟨h1, _⟩ |
            ⟨_, _, _, _, _, _, hp⟩ | ⟨_, hp⟩
          · rw [heq] at h2; simpa using h2
          · rw [heq] at h1; simp at h1
          · rw [heq] at hp; simp at hp
          · rw [heq] at hp; simp at hp
        split at hscan
        · have hf : (scan_newline s1 l1 v).1 = false := by rw [hscan]
          have h2 := scan_newline_state_of_false s1 l1 v hf
          rw [hscan] at h2
          simp at h2
          rw [h2, hs1]
        · simp at hscan
          rw [← hscan.1, hs1]
    · split at hscan
      · have hf : (scan_newline s l v).1 = false := by rw [hscan]
        have h2 := scan_newline_state_of_false s l v hf
        rw [hscan] at h2
        simpa using h2
      · simp at hscan
        exact hscan.1.symm

theorem scan_resSym_of_true (s : Scanner) (l : Lexer) (v : TokenType → Bool)
    (h : (scan s l v).1 = true) :
    (scan s l v).2.2.resSym.isSome = true := by
  have hnl : ∀ (s1 : Scanner) (l1 : Lexer) (s2 : Scanner) (l2 : Lexer),
      scan_newline s1 l1 v = (true, s2, l2) →
      l2.resSym.isSome = true := by
    intro s1 l1 s2 l2 hscan
    have htrue : (scan_newline s1 l1 v).1 = true := by rw [hscan]
    rcases scan_newline_shape s1 l1 v with ⟨hf, _⟩ | ⟨lx, w, hic, hsym, _⟩
    · exact absurd htrue (by simp [hf])
    · rw [hic] at hscan
      rcases (indentClassify_cases s1 lx w v).2.2 with h1 | h1 | h1
      · have hres : (indentClassify s1 lx w v).2.2.resSym = some .NEWLINE := by
          rw [h1.2.1, hsym]
        rw [hscan] at hres
        simp at hres
        simp [hres]
      · have hres := h1.2.2.2
        rw [hscan] at hres
        simp at hres
        simp [hres]
      · have hres := h1.2.2
        rw [hscan] at hres
        simp at hres
        simp [hres]
  rcases hscan : scan s l v with ⟨b, s2, l2⟩
  rw [hscan] at h
  simp only at h
  subst h
  show l2.resSym.isSome = true
  simp only [scan] at hscan
  split at hscan
  · simp only [Prod.mk.injEq, true_and] at hscan
    rw [← hscan.2]
    rfl
  · split at hscan
    · split at hscan
      · next s1 l1 heq =>
        simp only [Prod.mk.injEq, true_and] at hscan
        rw [← hscan.2]
        rcases scan_string_cases s l v with ⟨h1, _⟩ | ⟨_, _, hr⟩ |
          ⟨_, _, _, _, _, _, hp⟩ | ⟨_, hp⟩
        · rw [heq] at h1; simp at h1
        · rw [heq] at hr
          simp only at hr
          rcases hr with h2 | h2 | h2 <;> simp [h2]
        · rw [heq] at hp
          simp only [Prod.mk.injEq, true_and] at hp
          rw [hp.2]
          rfl
        · rw [heq] at hp
          simp only [Prod.mk.injEq, true_and] at hp
          rw [hp.2]
          rfl
      · next s1 l1 heq =>
        split at hscan
        · exact hnl s1 l1 s2 l2 hscan
        · simp at hscan
    · split at hscan
      · exact hnl s l s2 l2 hscan
      · simp at hscan

theorem scan_state_cases (s : Scanner) (l : Lexer) (v : TokenType → Bool) :
    (scan s l v).2.1 = s ∨
    (scan s l v).2.1 =
      ⟨s.indents.dropLast, s.delimiters, s.inside_f_string⟩ ∨
    (∃ w, s.indents.getLast?.getD 0 < w ∧ w ≤ l.rest.length ∧
      (scan s l v).2.1 =
        ⟨s.indents ++ [w % 65536], s.delimiters, s.inside_f_string⟩) ∨
    (∃ qc tri raw fmt, (qc = 34 ∨ qc = 39) ∧
      (scan s l v).2.1 =
        ⟨s.indents, s.delimiters ++ [mkDelim qc tri raw fmt], fmt⟩) ∨
    (scan s l v).2.1 =
      ⟨s.indents, s.delimiters.dropLast,
        topFormatFlag s.delimiters.dropLast⟩ := by
  have hnl : ∀ (s1 : Scanner) (l1 : Lexer) (s2 : Scanner) (l2 : Lexer),
      s1 = s → l1.rest.length ≤ l.rest.length →
      scan_newline s1 l1 v = (true, s2, l2) ∨
        scan_newline s1 l1 v = (false, s2, l2) →
      s2 = s ∨
      s2 = ⟨s.indents.dropLast, s.delimiters, s.inside_f_string⟩ ∨
      (∃ w, s.indents.getLast?.getD 0 < w ∧ w ≤ l.rest.length ∧
        s2 = ⟨s.indents ++ [w % 65536], s.delimiters, s.inside_f_string⟩) := by
    intro s1 l1 s2 l2 hs1 hlen hor
    subst hs1
    have hst : (scan_newline s1 l1 v).2.1 = s2 := by
      rcases hor with hscan | hscan <;> rw [hscan]
    rcases scan_newline_shape s1 l1 v with ⟨_, hs⟩ | ⟨lx, w, hic, _, hw⟩
    · rw [hst] at hs; exact Or.inl hs
    · rw [hic] at hst
      obtain ⟨hd, hf, hcase⟩ := indentClassify_cases s1 lx w v
      rw [hst] at hd hf
      rcases hcase with h1 | h1 | h1
      · rw [hst] at h1; exact Or.inl h1.1
      · refine Or.inr (Or.inr ⟨w, h1.2.1, le_trans hw hlen, ?_⟩)
        rw [hst] at h1
        rcases hs2 : s2 with ⟨i2, d2, f2⟩
        rw [hs2] at hd hf h1
        simp only at hd hf h1
        simp [hd, hf, h1.2.2.1]
      · refine Or.inr (Or.inl ?_)
        rw [hst] at h1
        rcases hs2 : s2 with ⟨i2, d2, f2⟩
        rw [hs2] at hd hf h1
        simp only at hd hf h1
        simp [hd, hf, h1.2.1]
  rcases hscan : scan s l v with ⟨b, s2, l2⟩
  simp only
  simp only [scan] at hscan
  split at hscan
  · simp only [Prod.mk.injEq] at hscan
    exact Or.inr (Or.inl hscan.2.1.symm)
  · split at hscan
    · split at hscan
      · next s1 l1 heq =>
        simp only [Prod.mk.injEq] at hscan
        rcases scan_string_cases s l v with ⟨h1, _⟩ | ⟨_, h2, _⟩ |
          ⟨qc, tri, raw, fmt, l3, hqor, hp⟩ | ⟨l3, hp⟩
        · rw [heq] at h1; simp at h1
        · rw [heq] at h2
          simp only at h2
          refine Or.inl ?_
          rw [← hscan.2.1]
          exact h2
        · rw [heq] at hp
          simp only [Prod.mk.injEq, true_and] at hp
          refine Or.inr (Or.inr (Or.inr (Or.inl
            ⟨qc, tri, raw, fmt, hqor, ?_⟩)))
          rw [← hscan.2.1, hp.1]
        · rw [heq] at hp
          simp only [Prod.mk.injEq, true_and] at hp
          refine Or.inr (Or.inr (Or.inr (Or.inr ?_)))
          rw [← hscan.2.1, hp.1]
      · next s1 l1 heq =>
        have hs1 : s1 = s := by
          rcases scan_string_cases s l v with ⟨_, h2⟩ | ⟨h1, _⟩ |
            ⟨_, _, _, _, _, _, hp⟩ | ⟨_, hp⟩
          · rw [heq] at h2; simpa using h2
          · rw [heq] at h1; simp at h1
          · rw [heq] at hp; simp at hp
          · rw [heq] at hp; simp at hp
        have hlen : l1.rest.length ≤ l.rest.length := by
          have h3 := scan_string_len s l v
          rw [heq] at h3
          simpa using h3
        split at hscan
        · rcases hnl s1 l1 s2 l2 hs1 hlen
              (by cases b
                  · exact Or.inr hscan
                  · exact Or.inl hscan) with
            h3 | h3 | h3
          · exact Or.inl h3
          · exact Or.inr (Or.inl h3)
          · exact Or.inr (Or.inr (Or.inl h3))
        · simp only [Prod.mk.injEq] at hscan
          refine Or.inl ?_
          rw [← hscan.2.1]
          exact hs1
    · split at hscan
      · rcases hnl s l s2 l2 rfl (le_refl _)
            (by cases b
                · exact Or.inr hscan
                · exact Or.inl hscan) with
          h3 | h3 | h3
        · exact Or.inl h3
        · exact Or.inr (Or.inl h3)
        · exact Or.inr (Or.inr (Or.inl h3))
      · simp only [Prod.mk.injEq] at hscan
        exact Or.inl hscan.2.1.symm


/-! ## Claim C3: two outcomes per scan call -/

/-- C3: every scan call either recognizes a token (result true with a
result symbol recorded, whose consumed span ends at the marked end) or
reports no match; on failure the scanner state is left completely
unchanged, so no partial token or partial state mutation is ever
visible (the tree-sitter protocol additionally discards any lookahead
the failed call advanced, so no input is consumed). -/
theorem C3_two_outcomes (s : Scanner) (l : Lexer) (v : TokenType → Bool) :
    ((scan s l v).1 = false → (scan s l v).2.1 = s) ∧
    ((scan s l v).1 = true → (scan s l v).2.2.resSym.isSome = true) :=
  ⟨scan_state_of_false s l v, scan_resSym_of_true s l v⟩

/-- C3 witness: a failing call (ordinary letter, nothing matches) keeps
the state; a succeeding NEWLINE call records its symbol. -/
theorem C3_witness :
    (scan ⟨[4], [], false⟩ (mkLexer [120]) vAll).2.1 = ⟨[4], [], false⟩ ∧
    (scan ⟨[], [], false⟩ (mkLexer [10]) vLine).2.2.resSym.isSome = true :=
  ⟨(C3_two_outcomes ⟨[4], [], false⟩ (mkLexer [120]) vAll).1 (by decide),
   (C3_two_outcomes ⟨[], [], false⟩ (mkLexer [10]) vLine).2 (by decide)⟩

/-! ## Claim C10: frame effects of emitted tokens -/

/-- C10: a successful scan that emits NEWLINE, INDENT or DEDENT leaves
the delimiter stack and the interpolation flag unchanged, and one that
emits STRING_START, STRING_CONTENT, ESCAPE_INTERPOLATION or STRING_END
leaves the indent stack unchanged. -/
theorem C10_frame_effects (s : Scanner) (l : Lexer) (v : TokenType → Bool)
    (h : (scan s l v).1 = true) :
    (((scan s l v).2.2.resSym = some .NEWLINE ∨
      (scan s l v).2.2.resSym = some .INDENT ∨
      (scan s l v).2.2.resSym = some .DEDENT) →
      (scan s l v).2.1.delimiters = s.delimiters ∧
      (scan s l v).2.1.inside_f_string = s.inside_f_string) ∧
    (((scan s l v).2.2.resSym = some .STRING_START ∨
      (scan s l v).2.2.resSym = some .STRING_CONTENT ∨
      (scan s l v).2.2.resSym = some .ESCAPE_INTERPOLATION ∨
      (scan s l v).2.2.resSym = some .STRING_END) →
      (scan s l v).2.1.indents = s.indents) := by
  have hnl : ∀ (s1 : Scanner) (l1 : Lexer) (s2 : Scanner) (l2 : Lexer),
      s1 = s → scan_newline s1 l1 v = (true, s2, l2) →
      (s2.delimiters = s.delimiters ∧
        s2.inside_f_string = s.inside_f_string) ∧
      (l2.resSym = some .NEWLINE ∨ l2.resSym = some .INDENT ∨
        l2.resSym = some .DEDENT) := by
    intro s1 l1 s2 l2 hs1 hscan
    subst hs1
    have htrue : (scan_newline s1 l1 v).1 = true := by rw [hscan]
    rcases scan_newline_shape s1 l1 v with ⟨hf, _⟩ | ⟨lx, w, hic, hsym, _⟩
    · exact absurd htrue (by simp [hf])
    · rw [hic] at hscan
      obtain ⟨hd, hf2, hcase⟩ := indentClassify_cases s1 lx w v
      rw [hscan] at hd hf2
      simp only at hd hf2
      refine ⟨⟨hd, hf2⟩, ?_⟩
      rcases hcase with h1 | h1 | h1
      · have hres : (indentClassify s1 lx w v).2.2.resSym = some .NEWLINE := by
          rw [h1.2.1, hsym]
        rw [hscan] at hres
        simp only at hres
        exact Or.inl hres
      · have hres := h1.2.2.2
        rw [hscan] at hres
        simp only at hres
        exact Or.inr (Or.inl hres)
      · have hres := h1.2.2
        rw [hscan] at hres
        simp only at hres
        exact Or.inr (Or.inr hres)
  rcases hscan : scan s l v with ⟨b, s2, l2⟩
  rw [hscan] at h
  simp only at h
  subst h
  simp only
  simp only [scan] at hscan
  split at hscan
  · simp only [Prod.mk.injEq, true_and] at hscan
    refine ⟨fun _ => by rw [← hscan.1]; exact ⟨rfl, rfl⟩, fun hsym => ?_⟩
    rw [← hscan.2] at hsym
    rcases hsym with h4 | h4 | h4 | h4 <;> simp [setSym] at h4
  · split at hscan
    · split at hscan
      · next s1 l1 heq =>
        simp only [Prod.mk.injEq, true_and] at hscan
        rcases scan_string_cases s l v with ⟨h1, _⟩ | ⟨_, h2, hr⟩ |
          ⟨qc, tri, raw, fmt, l3, _, hp⟩ | ⟨l3, hp⟩
        · rw [heq] at h1; simp at h1
        · rw [heq] at h2 hr
          simp only at h2 hr
          refine ⟨fun hsym => ?_, fun _ => by rw [← hscan.1, h2]⟩
          rw [← hscan.2] at hsym
          rcases hr with h3 | h3 | h3 <;> rw [h3] at hsym <;>
            rcases hsym with h4 | h4 | h4 <;> simp at h4
        · rw [heq] at hp
          simp only [Prod.mk.injEq, true_and] at hp
          refine ⟨fun hsym => ?_, fun _ => by rw [← hscan.1, hp.1]⟩
          rw [← hscan.2, hp.2] at hsym
          rcases hsym with h4 | h4 | h4 <;> simp [setSym] at h4
        · rw [heq] at hp
          simp only [Prod.mk.injEq, true_and] at hp
          refine ⟨fun hsym => ?_, fun _ => by rw [← hscan.1, hp.1]⟩
          rw [← hscan.2, hp.2] at hsym
          rcases hsym with h4 | h4 | h4 <;> simp [setSym] at h4
      · next s1 l1 heq =>
        have hs1 : s1 = s := by
          rcases scan_string_cases s l v with ⟨_, h2⟩ | ⟨h1, _⟩ |
            ⟨_, _, _, _, _, _, hp⟩ | ⟨_, hp⟩
          · rw [heq] at h2; simpa using h2
          · rw [heq] at h1; simp at h1
          · rw [heq] at hp; simp at hp
          · rw [heq] at hp; simp at hp
        split at hscan
        · obtain ⟨⟨hd, hf2⟩, hsyms⟩ := hnl s1 l1 s2 l2 hs1 hscan
          refine ⟨fun _ => ⟨hd, hf2⟩, fun hsym => ?_⟩
          rcases hsyms with h3 | h3 | h3 <;> rw [h3] at hsym <;>
            rcases hsym with h4 | h4 | h4 | h4 <;> simp at h4
        · simp at hscan
    · split at hscan
      · obtain ⟨⟨hd, hf2⟩, hsyms⟩ := hnl s l s2 l2 rfl hscan
        refine ⟨fun _ => ⟨hd, hf2⟩, fun hsym => ?_⟩
        rcases hsyms with h3 | h3 | h3 <;> rw [h3] at hsym <;>
          rcases hsym with h4 | h4 | h4 | h4 <;> simp at h4
      · simp at hscan

/-- C10 witness: an INDENT-emitting call leaves delimiters and flag
unchanged; a STRING_START-emitting call leaves the indent stack
unchanged. -/
theorem C10_witness :
    (scan ⟨[], [], false⟩ (mkLexer [10, 32, 32, 120]) vLine).2.1.delimiters
      = [] ∧
    (scan ⟨[], [], false⟩ (mkLexer [39, 97]) vStart).2.1.indents = [] :=
  ⟨((C10_frame_effects ⟨[], [], false⟩ (mkLexer [10, 32, 32, 120]) vLine
      (by decide)).1 (by decide)).1,
   (C10_frame_effects ⟨[], [], false⟩ (mkLexer [39, 97]) vStart
      (by decide)).2 (by decide)⟩

/-! ## Claim C1: deserialize robustness -/

/-- C1 counterexample: the buffer that announces two indent entries but
carries only one is truncated, yet deserialize keeps the successfully
restored prefix `[5]` instead of resetting to the all-empty state. -/
theorem C1_cex_truncated_partial :
    deserialize [2, 0, 0, 0, 5, 0] = ⟨[5], [], false⟩ ∧
    deserialize [2, 0, 0, 0, 5, 0] ≠ ⟨[], [], false⟩ := by decide

/-- C1 (amended): deserialize always terminates and never raises; a
buffer too short to contain the leading 32-bit indent count (fewer than
4 bytes, which includes the empty buffer) yields exactly the all-empty
state, while longer truncated buffers keep the state restored from the
readable prefix. -/
theorem C1_deserialize_short_resets (buf : List Nat) (h : buf.length < 4) :
    deserialize buf = ⟨[], [], false⟩ := by
  match buf with
  | [] => rfl
  | [_] => rfl
  | [_, _] => rfl
  | [_, _, _] => rfl
  | _ :: _ :: _ :: _ :: _ => exact absurd h (by simp)

/-- C1 witness: the amended theorem applied to the 1-byte buffer. -/
theorem C1_witness :
    ([7] : List Nat).length < 4 ∧ deserialize [7] = ⟨[], [], false⟩ :=
  ⟨by decide, C1_deserialize_short_resets [7] (by decide)⟩

/-! ## Claim C4: end-of-input dedent drain -/

/-- C4: at end of input with DEDENT acceptable and a non-empty indent
stack, scan pops exactly one level and emits DEDENT, leaving the
delimiter stack and flag untouched. -/
theorem C4_eof_dedent (s : Scanner) (l : Lexer) (v : TokenType → Bool)
    (hv : v .DEDENT = true) (hne : s.indents ≠ []) (he : atEof l = true) :
    scan s l v =
      (true, ⟨s.indents.dropLast, s.delimiters, s.inside_f_string⟩,
        setSym l .DEDENT) := by
  unfold scan
  rw [if_pos ⟨hv, hne, he⟩]

/-- C4 witness: starting from stack [4, 8, 12] at end of input, three
successive DEDENT-accepting calls yield stacks [4, 8], [4], [] and emit
one DEDENT each. -/
theorem C4_witness :
    scan ⟨[4, 8, 12], [], false⟩ (mkLexer []) vLine =
      (true, ⟨[4, 8], [], false⟩, setSym (mkLexer []) .DEDENT) ∧
    scan ⟨[4, 8], [], false⟩ (mkLexer []) vLine =
      (true, ⟨[4], [], false⟩, setSym (mkLexer []) .DEDENT) ∧
    scan ⟨[4], [], false⟩ (mkLexer []) vLine =
      (true, ⟨[], [], false⟩, setSym (mkLexer []) .DEDENT) :=
  ⟨(C4_eof_dedent _ _ _ (by decide) (by decide) (by decide)).trans (by decide),
   (C4_eof_dedent _ _ _ (by decide) (by decide) (by decide)).trans (by decide),
   (C4_eof_dedent _ _ _ (by decide) (by decide) (by decide)).trans (by decide)⟩

/-! ## Claim C5: indent comparison after a newline -/

/-- C5 counterexample: with stack [5] and measured width 65541, INDENT
acceptable, the code pushes 65541 mod 65536 = 5 (the width is stored as
a uint16), not the measured width 65541 the claim promises. -/
theorem C5_cex_push_truncates :
    (indentClassify ⟨[5], [], false⟩ (mkLexer []) 65541 vAll).2.1.indents
      = [5, 5] ∧
    (indentClassify ⟨[5], [], false⟩ (mkLexer []) 65541 vAll).2.1.indents
      ≠ [5] ++ [65541] := by decide

/-- C5 (amended): comparing the measured width w with the stack top
(0 when the stack is empty): if w is greater and INDENT is acceptable
the scanner pushes w reduced modulo 65536 (equal to w whenever
w < 65536, since widths are stored as uint16) and emits INDENT; if w is
smaller and DEDENT is acceptable it pops exactly one level and emits
DEDENT; otherwise it emits NEWLINE exactly when NEWLINE is acceptable
and fails otherwise. -/
theorem C5_indent_classification (s : Scanner) (l : Lexer) (w : Nat)
    (v : TokenType → Bool) (hsym : l.resSym = some .NEWLINE) :
    (s.indents.getLast?.getD 0 < w → v .INDENT = true →
      indentClassify s l w v =
        (true, ⟨s.indents ++ [w % 65536], s.delimiters, s.inside_f_string⟩,
          setSym l .INDENT)) ∧
    (w < s.indents.getLast?.getD 0 → v .DEDENT = true →
      indentClassify s l w v =
        (true, ⟨s.indents.dropLast, s.delimiters, s.inside_f_string⟩,
          setSym l .DEDENT)) ∧
    (¬(s.indents.getLast?.getD 0 < w ∧ v .INDENT = true) →
      ¬(w < s.indents.getLast?.getD 0 ∧ v .DEDENT = true) →
      indentClassify s l w v = (v .NEWLINE, s, l) ∧
        l.resSym = some .NEWLINE) := by
  refine ⟨fun h1 h2 => ?_, fun h1 h2 => ?_, fun h1 h2 => ?_⟩
  · simp only [indentClassify]
    rw [if_pos ⟨h1, h2⟩]
  · simp only [indentClassify]
    rw [if_neg (by omega), if_pos ⟨h1, h2⟩]
  · simp only [indentClassify]
    rw [if_neg h1, if_neg h2]
    exact ⟨rfl, hsym⟩

/-- C5 witness: the three cases at concrete inputs over stack [2]. -/
theorem C5_witness :
    indentClassify ⟨[2], [], false⟩ ⟨0, [], 0, some .NEWLINE⟩ 5 vLine =
      (true, ⟨[2, 5], [], false⟩, setSym ⟨0, [], 0, some .NEWLINE⟩ .INDENT) ∧
    indentClassify ⟨[2], [], false⟩ ⟨0, [], 0, some .NEWLINE⟩ 1 vLine =
      (true, ⟨[], [], false⟩, setSym ⟨0, [], 0, some .NEWLINE⟩ .DEDENT) ∧
    indentClassify ⟨[2], [], false⟩ ⟨0, [], 0, some .NEWLINE⟩ 2 vLine =
      (true, ⟨[2], [], false⟩, ⟨0, [], 0, some .NEWLINE⟩) :=
  ⟨((C5_indent_classification ⟨[2], [], false⟩ _ 5 vLine rfl).1
      (by decide) (by decide)).trans (by decide),
   ((C5_indent_classification ⟨[2], [], false⟩ _ 1 vLine rfl).2.1
      (by decide) (by decide)).trans (by decide),
   (((C5_indent_classification ⟨[2], [], false⟩ _ 2 vLine rfl).2.2
      (by decide) (by decide)).1).trans (by decide)⟩

/-! ## Claim C6: unescaped brace handling in format strings -/

/-- C6: while scanning content of a format string, an unescaped open
brace with content already accumulated stops the loop and returns the
content; with no accumulated content, a doubled brace is consumed as
exactly two characters and emitted as ESCAPE_INTERPOLATION, and a
single brace makes the call fail after consuming nothing of the token
(the framework discards the lookahead advance on failure).  The closing
conjunct checks the documented scenario: the input f-triple-quote
abc-double-brace-def-triple-quote yields STRING_START, STRING_CONTENT
abc, ESCAPE_INTERPOLATION, STRING_CONTENT def, STRING_END over five
calls. -/
theorem C6_format_brace_handling (qc : Nat) (tri raw : Bool) (fuel : Nat)
    (l : Lexer) (hqc : qc ≠ 123) (hla : lookahead l = 123) :
    (contentLoop qc tri raw true (fuel + 1) l true =
      .emit (setSym (markEnd l) .STRING_CONTENT)) ∧
    (lookahead (advance l) = 123 →
      contentLoop qc tri raw true (fuel + 1) l false =
        .emit (setSym (markEnd (advance (advance l))) .ESCAPE_INTERPOLATION) ∧
      (advance (advance l)).pos = l.pos + 2) ∧
    (lookahead (advance l) ≠ 123 →
      contentLoop qc tri raw true (fuel + 1) l false = .fail (advance l)) ∧
    (scan ⟨[], [], false⟩ (mkLexer fStringInput) vStart =
      (true, ⟨[], [1319], true⟩,
        ⟨4, fStringInput.drop 4, 4, some .STRING_START⟩) ∧
     scan ⟨[], [1319], true⟩ ⟨4, fStringInput.drop 4, 4, none⟩ vContent =
      (true, ⟨[], [1319], true⟩,
        ⟨7, fStringInput.drop 7, 7, some .STRING_CONTENT⟩) ∧
     scan ⟨[], [1319], true⟩ ⟨7, fStringInput.drop 7, 7, none⟩ vContent =
      (true, ⟨[], [1319], true⟩,
        ⟨9, fStringInput.drop 9, 9, some .ESCAPE_INTERPOLATION⟩) ∧
     scan ⟨[], [1319], true⟩ ⟨9, fStringInput.drop 9, 9, none⟩ vContent =
      (true, ⟨[], [1319], true⟩,
        ⟨14, fStringInput.drop 14, 12, some .STRING_CONTENT⟩) ∧
     scan ⟨[], [1319], true⟩ ⟨12, fStringInput.drop 12, 12, none⟩ vEnd =
      (true, ⟨[], [], false⟩, ⟨15, [], 15, some .STRING_END⟩)) := by
  have h1 : ((123 : Nat) == qc) = false :=
    beq_eq_false_iff_ne.mpr (Ne.symm hqc)
  have h3 : is_newline 123 = false := by decide
  refine ⟨?_, fun hb => ⟨?_, by simp [advance]⟩, fun hb => ?_, by decide⟩
  · simp [contentLoop, hla, h1, h3]
  · have h2 : (lookahead (advance l) == 123) = true := by simp [hb]
    simp [contentLoop, hla, h1, h2, h3]
  · have h2 : (lookahead (advance l) == 123) = false :=
      beq_eq_false_iff_ne.mpr hb
    simp [contentLoop, hla, h1, h2, h3]

/-- C6 witness: the three brace cases at concrete inputs (single-quote
triple format string, content open-brace-x and open-brace-open-brace). -/
theorem C6_witness :
    contentLoop 39 true false true 1 ⟨0, [123, 120], 0, none⟩ true =
      .emit (setSym (markEnd ⟨0, [123, 120], 0, none⟩) .STRING_CONTENT) ∧
    contentLoop 39 true false true 1 ⟨0, [123, 123], 0, none⟩ false =
      .emit (setSym (markEnd (advance (advance ⟨0, [123, 123], 0, none⟩)))
        .ESCAPE_INTERPOLATION) ∧
    contentLoop 39 true false true 1 ⟨0, [123, 120], 0, none⟩ false =
      .fail (advance ⟨0, [123, 120], 0, none⟩) :=
  ⟨(C6_format_brace_handling 39 true false 0 _ (by decide) (by decide)).1,
   ((C6_format_brace_handling 39 true false 0 _ (by decide)
      (by decide)).2.1 (by decide)).1,
   (C6_format_brace_handling 39 true false 0 _ (by decide)
      (by decide)).2.2.1 (by decide)⟩

/-! ## Claim C7: escape sequences in string content -/

/-- C7 counterexample: in a raw string (delimiter 551 = single quote
with the raw bit) the backslash is not escape-processed: scanning
backslash-quote emits STRING_CONTENT covering exactly one character
(the backslash alone, markedEnd 1), and the next call terminates the
string with STRING_END at the quote, contradicting the claim that any
backslash-X pair is always consumed as two characters and never
terminates the string. -/
theorem C7_cex_raw_backslash :
    (scan_string ⟨[], [551], false⟩ (mkLexer [92, 39]) vContent).2.2.markedEnd
      = 1 ∧
    (scan_string ⟨[], [551], false⟩ (mkLexer [92, 39]) vContent).2.2.resSym
      = some .STRING_CONTENT ∧
    scan_string ⟨[], [551], false⟩ ⟨1, [39], 1, none⟩ vContent =
      (true, ⟨[], [], false⟩, ⟨2, [], 2, some .STRING_END⟩) := by decide

/-- C7 (amended): in a non-raw string, a backslash followed by any
character X is consumed as exactly two characters, counted as content,
and never terminates the string or triggers interpolation: the content
loop continues after the pair with the content flag set, even when X is
the quote character or an open brace. -/
theorem C7_escape_consumes_two (qc : Nat) (tri fmt : Bool) (fuel : Nat)
    (l : Lexer) (hqc : qc ≠ 92) (hla : lookahead l = 92)
    (hx : lookahead (advance l) ≠ 0) (hc : Bool) :
    contentLoop qc tri false fmt (fuel + 1) l hc =
      contentLoop qc tri false fmt fuel (advance (advance l)) true ∧
    (advance (advance l)).pos = l.pos + 2 := by
  have h1 : ((92 : Nat) == qc) = false :=
    beq_eq_false_iff_ne.mpr (Ne.symm hqc)
  have h2 : (lookahead (advance l) != 0) = true := by simp [hx]
  have h3 : is_newline 92 = false := by decide
  constructor
  · simp [contentLoop, hla, h1, h2, h3]
  · simp [advance]

/-- C7 witness: backslash followed by the quote character itself inside
a non-raw single-quoted string steps the loop past both characters. -/
theorem C7_witness :
    contentLoop 39 false false false 3 (mkLexer [92, 39, 39]) false =
      contentLoop 39 false false false 2
        (advance (advance (mkLexer [92, 39, 39]))) true ∧
    (advance (advance (mkLexer [92, 39, 39]))).pos =
      (mkLexer [92, 39, 39]).pos + 2 :=
  C7_escape_consumes_two 39 false false 2 (mkLexer [92, 39, 39])
    (by decide) (by decide) (by decide) false

/-! ## Claim C9: the interpolation flag tracks the top delimiter -/

theorem mkDelim_format_bit (qc : Nat) (tri raw fmt : Bool)
    (h : qc = 34 ∨ qc = 39) :
    ((mkDelim qc tri raw fmt &&& 1024) != 0) = fmt := by
  rcases h with h | h <;> subst h <;> cases tri <;> cases raw <;>
    cases fmt <;> decide

theorem mkDelim_lt (qc : Nat) (tri raw fmt : Bool) (h : qc = 34 ∨ qc = 39) :
    mkDelim qc tri raw fmt < 4294967296 := by
  rcases h with h | h <;> subst h <;> cases tri <;> cases raw <;>
    cases fmt <;> decide

/-- C9: in every state reachable from the initial state by scan calls
the interpolation flag equals the format bit of the delimiter stack's
top element (false when the stack is empty); STRING_START recomputes it
from the pushed descriptor and STRING_END from the new top after the
pop. -/
theorem C9_interpolation_invariant (s : Scanner) (h : Reachable s) :
    s.inside_f_string = topFormatFlag s.delimiters := by
  induction h with
  | init => rfl
  | step s1 l v _ ih =>
    rcases scan_state_cases s1 l v with h1 | h1 | ⟨w, _, _, h1⟩ |
      ⟨qc, tri, raw, fmt, hqor, h1⟩ | h1
    · rw [h1]; exact ih
    · rw [h1]; exact ih
    · rw [h1]; exact ih
    · rw [h1]
      simp only [topFormatFlag, List.getLast?_concat]
      exact (mkDelim_format_bit qc tri raw fmt hqor).symm
    · rw [h1]

/-- C9 witness: the invariant applied to the reachable state after a
STRING_START that pushes the format triple-quote delimiter 1319. -/
theorem C9_witness :
    (⟨[], [1319], true⟩ : Scanner).inside_f_string =
      topFormatFlag ([1319] : List Nat) := by
  have hr : Reachable ⟨[], [1319], true⟩ := by
    have h1 := Reachable.step ⟨[], [], false⟩ (mkLexer fStringInput) vStart
      Reachable.init
    have h2 : (scan ⟨[], [], false⟩ (mkLexer fStringInput) vStart).2.1 =
        ⟨[], [1319], true⟩ := by decide
    rwa [h2] at h1
  exact C9_interpolation_invariant ⟨[], [1319], true⟩ hr

/-! ## Claim C2: serialization round trip -/

theorem reachable_bounds (s : Scanner) (h : Reachable s) :
    (∀ x ∈ s.indents, x < 65536) ∧
    (∀ d ∈ s.delimiters, d < 4294967296) := by
  induction h with
  | init => exact ⟨by simp, by simp⟩
  | step s1 l v _ ih =>
    rcases scan_state_cases s1 l v with h1 | h1 | ⟨w, _, _, h1⟩ |
      ⟨qc, tri, raw, fmt, hqor, h1⟩ | h1 <;> rw [h1]
    · exact ih
    · exact ⟨fun x hx => ih.1 x (List.dropLast_subset _ hx), ih.2⟩
    · refine ⟨fun x hx => ?_, ih.2⟩
      rcases List.mem_append.mp hx with hx | hx
      · exact ih.1 x hx
      · rw [List.mem_singleton.mp hx]
        exact Nat.mod_lt _ (by omega)
    · refine ⟨ih.1, fun d hd => ?_⟩
      rcases List.mem_append.mp hd with hd | hd
      · exact ih.2 d hd
      · rw [List.mem_singleton.mp hd]
        exact mkDelim_lt qc tri raw fmt hqor
    · exact ⟨ih.1, fun d hd => ih.2 d (List.dropLast_subset _ hd)⟩

theorem serIndents_roundtrip (vs : List Nat) :
    ∀ size, size + 2 * vs.length ≤ BUFFER_SIZE → (∀ v ∈ vs, v < 65536) →
    ∃ bs, serIndents vs size = some (bs, size + 2 * vs.length) ∧
      ∀ rest, readU16s vs.length (bs ++ rest) = (vs, rest, true) := by
  induction vs with
  | nil =>
    intro size _ _
    exact ⟨[], by simp [serIndents], fun rest => by simp [readU16s]⟩
  | cons v vs ih =>
    intro size hsz hv
    obtain ⟨bs, hser, hread⟩ := ih (size + 2)
      (by simp only [List.length_cons] at hsz; omega)
      (fun x hx => hv x (List.mem_cons_of_mem _ hx))
    refine ⟨u16le v ++ bs, ?_, ?_⟩
    · have hc : ¬ (size + 2 > BUFFER_SIZE) := by
        simp only [List.length_cons] at hsz
        simp only [BUFFER_SIZE] at hsz ⊢
        omega
      have harith : size + 2 + 2 * vs.length = size + 2 * (v :: vs).length := by
        simp only [List.length_cons]
        omega
      simp only [serIndents]
      rw [if_neg hc, hser]
      rw [harith]
    · intro rest
      have hval : v % 256 % 256 + 256 * (v / 256 % 256 % 256) = v := by
        have := hv v (List.mem_cons_self v vs)
        omega
      simp only [List.append_assoc, u16le, List.cons_append, List.nil_append,
        List.append_eq, List.length_cons, readU16s, hread rest, hval]

theorem serDelims_roundtrip (vs : List Nat) :
    ∀ size, size + 4 * vs.length ≤ BUFFER_SIZE →
    (∀ v ∈ vs, v < 4294967296) →
    ∃ bs, serDelims vs size = some (bs, size + 4 * vs.length) ∧
      ∀ rest, readU32s vs.length (bs ++ rest) = (vs, rest, true) := by
  induction vs with
  | nil =>
    intro size _ _
    exact ⟨[], by simp [serDelims], fun rest => by simp [readU32s]⟩
  | cons v vs ih =>
    intro size hsz hv
    obtain ⟨bs, hser, hread⟩ := ih (size + 4)
      (by simp only [List.length_cons] at hsz; omega)
      (fun x hx => hv x (List.mem_cons_of_mem _ hx))
    refine ⟨u32le v ++ bs, ?_, ?_⟩
    · have hc : ¬ (size + 4 > BUFFER_SIZE) := by
        simp only [List.length_cons] at hsz
        simp only [BUFFER_SIZE] at hsz ⊢
        omega
      have harith : size + 4 + 4 * vs.length = size + 4 * (v :: vs).length := by
        simp only [List.length_cons]
        omega
      simp only [serDelims]
      rw [if_neg hc, hser]
      rw [harith]
    · intro rest
      have hval : v % 256 % 256 + 256 * (v / 256 % 256 % 256) +
          65536 * (v / 65536 % 256 % 256) +
          16777216 * (v / 16777216 % 256 % 256) = v := by
        have := hv v (List.mem_cons_self v vs)
        omega
      simp only [List.append_assoc, u32le, List.cons_append, List.nil_append,
        List.append_eq, List.length_cons, readU32s, hread rest, hval]

/-- C2: for every reachable state whose encoding fits the 1024-byte
serialization capacity, deserializing the bytes produced by serialize
restores exactly the same state (same indent stack, same delimiter
stack, same interpolation flag).  serialize is a pure function of the
logical state, hence deterministic. -/
theorem C2_roundtrip (s : Scanner) (hreach : Reachable s)
    (hfit : 9 + 2 * s.indents.length + 4 * s.delimiters.length ≤ 1024) :
    deserialize (serialize s) = s := by
  obtain ⟨si, sd, sf⟩ := s
  simp only at hfit
  obtain ⟨hind, hdel⟩ := reachable_bounds _ hreach
  simp only at hind hdel
  obtain ⟨bs1, hser1, hread1⟩ := serIndents_roundtrip si 4
    (by simp only [BUFFER_SIZE]; omega) hind
  obtain ⟨bs2, hser2, hread2⟩ := serDelims_roundtrip sd
    (4 + 2 * si.length + 4) (by simp only [BUFFER_SIZE]; omega) hdel
  have c1 : ¬ (0 + 4 > 1024) := by omega
  have c2 : ¬ (4 + 2 * si.length + 4 > 1024) := by omega
  have c3 : ¬ (4 + 2 * si.length + 4 + 4 * sd.length + 1 > 1024) := by omega
  have hser : serialize ⟨si, sd, sf⟩ =
      u32le si.length ++ (bs1 ++ (u32le sd.length ++ (bs2 ++
        [if sf then 1 else 0]))) := by
    simp [serialize, BUFFER_SIZE, hser1, hser2, c1, c2, c3,
      List.append_assoc]
  rw [hser]
  have hic : si.length % 256 % 256 + 256 * (si.length / 256 % 256 % 256) +
      65536 * (si.length / 65536 % 256 % 256) +
      16777216 * (si.length / 16777216 % 256 % 256) = si.length := by omega
  have hdc : sd.length % 256 % 256 + 256 * (sd.length / 256 % 256 % 256) +
      65536 * (sd.length / 65536 % 256 % 256) +
      16777216 * (sd.length / 16777216 % 256 % 256) = sd.length := by omega
  have hic2 : si.length % 256 + 256 * (si.length / 256 % 256) +
      65536 * (si.length / 65536 % 256) +
      16777216 * (si.length / 16777216 % 256) = si.length := by omega
  have hdc2 : sd.length % 256 + 256 * (sd.length / 256 % 256) +
      65536 * (sd.length / 65536 % 256) +
      16777216 * (sd.length / 16777216 % 256) = sd.length := by omega
  simp [deserialize, u32le, hic, hdc, hic2, hdc2, hread1, hread2]
  cases sf <;> simp

/-- C2 witness: the round trip for the reachable state with indent
stack [4], one open format single-quote delimiter 1063, and the flag
set, reached by an INDENT call and then a STRING_START call. -/
theorem C2_witness :
    deserialize (serialize ⟨[4], [1063], true⟩) = ⟨[4], [1063], true⟩ := by
  have h1 : (scan ⟨[], [], false⟩ (mkLexer [10, 32, 32, 32, 32, 120])
      vLine).2.1 = ⟨[4], [], false⟩ := by decide
  have h2 : (scan ⟨[4], [], false⟩ (mkLexer [102, 39, 120]) vStart).2.1 =
      ⟨[4], [1063], true⟩ := by decide
  have r1 := Reachable.step ⟨[], [], false⟩
    (mkLexer [10, 32, 32, 32, 32, 120]) vLine Reachable.init
  rw [h1] at r1
  have r2 := Reachable.step ⟨[4], [], false⟩ (mkLexer [102, 39, 120])
    vStart r1
  rw [h2] at r2
  exact C2_roundtrip ⟨[4], [1063], true⟩ r2 (by decide)

/-! ## Claim C8: monotonicity of the indent stack -/

theorem skipSpacesCount_nospace (fuel : Nat) (l : Lexer) (n : Nat)
    (h : is_space (lookahead l) = false) :
    skipSpacesCount fuel l n = (n, l) := by
  cases fuel
  · rfl
  · simp [skipSpacesCount, h]

theorem skipBlankLines_exit (fuel : Nat) (l : Lexer) (ind : Nat)
    (h : (is_newline (lookahead l) || (lookahead l == 35)) = false) :
    skipBlankLines fuel l ind = (ind, l) := by
  cases fuel
  · rfl
  · simp [skipBlankLines, h]

/-- Closed form of the whitespace loop on a run of spaces: it consumes
the whole run and counts it. -/
theorem skipSpacesCount_replicate (k : Nat) : ∀ (fuel p me : Nat)
    (rs : Option TokenType) (r : List Nat) (n : Nat), k ≤ fuel →
    is_space (r.headD 0) = false →
    skipSpacesCount fuel ⟨p, List.replicate k 32 ++ r, me, rs⟩ n =
      (n + k, ⟨p + k, r, me, rs⟩) := by
  induction k with
  | zero =>
    intro fuel p me rs r n _ hr
    exact skipSpacesCount_nospace fuel _ n (by simpa [lookahead] using hr)
  | succ k ih =>
    intro fuel p me rs r n hf hr
    cases fuel with
    | zero => omega
    | succ f =>
      have hsp : is_space (lookahead
          ⟨p, List.replicate (k + 1) 32 ++ r, me, rs⟩) = true := by
        simp [lookahead, List.replicate_succ, is_space]
      have hadv : advance ⟨p, List.replicate (k + 1) 32 ++ r, me, rs⟩ =
          ⟨p + 1, List.replicate k 32 ++ r, me, rs⟩ := by
        simp [advance, List.replicate_succ]
      simp only [skipSpacesCount]
      rw [if_pos hsp, hadv, ih f (p + 1) me rs r (n + 1) (by omega) hr]
      have h1 : n + 1 + k = n + (k + 1) := by omega
      have h2 : p + 1 + k = p + (k + 1) := by omega
      rw [h1, h2]

theorem skipSpacesCount_replicate_nil (k fuel p me : Nat)
    (rs : Option TokenType) (n : Nat) (hf : k ≤ fuel) :
    skipSpacesCount fuel ⟨p, List.replicate k 32, me, rs⟩ n =
      (n + k, ⟨p + k, [], me, rs⟩) := by
  have h := skipSpacesCount_replicate k fuel p me rs [] n hf (by decide)
  rwa [List.append_nil] at h

/-- Closed form of scan_newline on an input that is one line feed
followed by a run of k+1 spaces and nothing else: the newline is
consumed, the width k+1 is measured, and the indent comparison decides
the outcome. -/
theorem scan_newline_nl_spaces (s : Scanner) (p me k : Nat)
    (rs : Option TokenType) (v : TokenType → Bool) :
    scan_newline s ⟨p, 10 :: List.replicate (k + 1) 32, me, rs⟩ v =
      indentClassify s ⟨p + 1 + (k + 1), [], p + 1, some .NEWLINE⟩
        (k + 1) v := by
  have e1 := skipSpacesCount_nospace
    ((10 :: List.replicate (k + 1) 32).length + 1)
    ⟨p, 10 :: List.replicate (k + 1) 32, me, rs⟩ 0
    (by simp [lookahead, is_space])
  have hc1 : (lookahead ⟨p, 10 :: List.replicate (k + 1) 32, me, rs⟩ == 35)
      = false := by simp [lookahead]
  have hc2 : is_newline
      (lookahead ⟨p, 10 :: List.replicate (k + 1) 32, me, rs⟩) = true := by
    simp [lookahead, is_newline]
  have hc3 : (lookahead ⟨p + 1, List.replicate (k + 1) 32, me, rs⟩ == 10)
      = false := by simp [lookahead, List.replicate_succ]
  have e3 := skipSpacesCount_replicate_nil (k + 1)
    ((List.replicate (k + 1) 32).length + 1) (p + 1) (p + 1)
    (some TokenType.NEWLINE) 0 (by rw [List.length_replicate]; omega)
  have e4 : ∀ ind, skipBlankLines (([] : List Nat).length + 1)
      ⟨p + 1 + (k + 1), [], p + 1, some TokenType.NEWLINE⟩ ind =
      (ind, ⟨p + 1 + (k + 1), [], p + 1, some TokenType.NEWLINE⟩) :=
    fun ind => skipBlankLines_exit _ _ _ (by simp [lookahead, is_newline])
  simp only [scan_newline, advance, markEnd, setSym, hc1, hc2, hc3,
    e1, e3, e4, List.tail_cons, Bool.not_true, Bool.false_eq_true,
    ite_true, ite_false, if_true, if_false, Nat.zero_add]

/-- C8 counterexample: a line of 65541 spaces overflows the uint16
indent store.  From the initial state, an INDENT call on a 5-space line
reaches stack [5]; a second INDENT call on a 65541-space line passes
the comparison (65541 > 5) but pushes 65541 mod 65536 = 5, reaching the
scan-reachable state with stack [5, 5], which is not strictly
increasing. -/
theorem C8_cex_truncation :
    Reachable ⟨[5, 5], [], false⟩ ∧
    ¬ List.Chain' (· < ·) ((⟨[5, 5], [], false⟩ : Scanner).indents) := by
  constructor
  · have h1 : (scan ⟨[], [], false⟩ (mkLexer [10, 32, 32, 32, 32, 32, 120])
        vLine).2.1 = ⟨[5], [], false⟩ := by decide
    have h2 : (scan ⟨[5], [], false⟩
        ⟨0, 10 :: List.replicate (65540 + 1) 32, 0, none⟩ vLine).2.1 =
        ⟨[5, 5], [], false⟩ := by
      have hsc : scan ⟨[5], [], false⟩
          ⟨0, 10 :: List.replicate (65540 + 1) 32, 0, none⟩ vLine =
          scan_newline ⟨[5], [], false⟩
            ⟨0, 10 :: List.replicate (65540 + 1) 32, 0, none⟩ vLine := by
        have hd1 : ¬(vLine .DEDENT = true ∧
            (⟨[5], [], false⟩ : Scanner).indents ≠ [] ∧
            atEof ⟨0, 10 :: List.replicate (65540 + 1) 32, 0, none⟩
              = true) := by
          intro hcon
          exact absurd hcon.2.2 (by decide)
        have hd2 : ¬(vLine .STRING_START = true ∨
            vLine .STRING_CONTENT = true ∨ vLine .STRING_END = true ∨
            vLine .ESCAPE_INTERPOLATION = true) := by decide
        have hd3 : (vLine .NEWLINE = true ∨ vLine .INDENT = true ∨
            vLine .DEDENT = true) := by decide
        simp only [scan]
        rw [if_neg hd1, if_neg hd2, if_pos hd3]
      rw [hsc, scan_newline_nl_spaces]
      decide
    have r1 := Reachable.step ⟨[], [], false⟩
      (mkLexer [10, 32, 32, 32, 32, 32, 120]) vLine Reachable.init
    rw [h1] at r1
    have r2 := Reachable.step ⟨[5], [], false⟩
      ⟨0, 10 :: List.replicate (65540 + 1) 32, 0, none⟩ vLine r1
    rw [h2] at r2
    exact r2
  · rw [show ((⟨[5, 5], [], false⟩ : Scanner)).indents = [5, 5] from rfl,
      List.chain'_pair]
    omega

/-- C8 (amended): in every state reachable from the initial state by
scan calls whose input buffers are shorter than 65536 code points (so
that no measured indentation width can overflow the uint16 store), the
indent stack is strictly increasing from bottom to top, and every such
scan call preserves this invariant. -/
theorem C8_monotonic (s : Scanner) (h : ReachableB s) :
    List.Chain' (· < ·) s.indents := by
  induction h with
  | init => simp
  | step s1 l v hr hlen ih =>
    rcases scan_state_cases s1 l v with h1 | h1 | ⟨w, hw1, hw2, h1⟩ |
      ⟨qc, tri, raw, fmt, _, h1⟩ | h1
    · rw [h1]; exact ih
    · rw [h1]; exact ih.init
    · rw [h1]
      show List.Chain' (· < ·) (s1.indents ++ [w % 65536])
      have hw : w % 65536 = w := Nat.mod_eq_of_lt (by omega)
      rw [hw, List.chain'_append]
      refine ⟨ih, List.chain'_singleton _, ?_⟩
      intro x hx y hy
      simp only [List.head?_cons, Option.mem_def, Option.some.injEq] at hy
      subst hy
      rw [Option.mem_def] at hx
      rw [hx] at hw1
      simpa using hw1
    · rw [h1]; exact ih
    · rw [h1]; exact ih

/-- C8 witness: the amended invariant at the reachable state with stack
[2] reached by one INDENT call on a short input. -/
theorem C8_witness :
    List.Chain' (· < ·) ((⟨[2], [], false⟩ : Scanner).indents) := by
  have h1 : (scan ⟨[], [], false⟩ (mkLexer [10, 32, 32, 120]) vLine).2.1 =
      ⟨[2], [], false⟩ := by decide
  have hr : ReachableB ⟨[2], [], false⟩ := by
    have hb := ReachableB.step ⟨[], [], false⟩ (mkLexer [10, 32, 32, 120])
      vLine ReachableB.init (by decide)
    rwa [h1] at hb
  exact C8_monotonic ⟨[2], [], false⟩ hr

end Codon
